import Mathlib

/-!
Shallow embedding of the firefly event aggregator
(`internal/events/aggregator.go`) and proofs about its behaviour.

The store (messages, events, blocked-context rows, the aggregator offset and
local data availability) is modelled as an explicit record `St` threaded
through the aggregator functions.  Every database / external call first goes
through `dbOp`, which ticks an operation counter and can be made to fail at a
chosen operation index (`failAt`), modelling transient persistence errors.
Go `nil` pointers on event fields are modelled with `Option`; dereferencing
`nil` is modelled as the explicit error `AggErr.nilPanic`, and indexing the
empty batch as `AggErr.indexPanic`, so the embedding is total.
-/

/-! ## Observation helpers -/

/-! ## Concrete scenario for claim C1

Two messages `c1_M1` (sequence 10) and `c1_M2` (sequence 20) share
`(namespace, context, group)`.  Both are unconfirmed and both rows are in
the store, as are their `message-sequenced-broadcast` events (sequences 10
and 20), but the aggregator's offset is still 0: neither sequenced event has
been processed, so no blocker exists for the context.  The batch holds the
single earlier `data-arrived-broadcast` event (sequence 5) for data blob
100, which only `c1_M2` references; `c1_M2`'s data is available while
`c1_M1`'s is not. -/

/-! ## Concrete scenario for claim C2

A two-event batch whose first event triggers an unblock (sub-call repoll =
true) and whose second event is an inert derived event (sub-call repoll =
false).  The OR of the sub-call repolls is true, but `processEvents`
overwrites its batch-level `repoll` with each sub-call's result and returns
the last one, i.e. false. -/

/-! ## Helper lemmas for the conditional theorems -/

/-! ## Sortedness and membership of the sequence-ordered queries -/

/-- Event types consumed or produced by the aggregator
(`fftypes.EventType`).  `other` stands for the remaining members of the
closed set of event types, all of which fall into the `default` branch of
`processEvent`. -/
inductive EventType
  | dataArrivedBroadcast
  | messageSequencedBroadcast
  | messageConfirmed
  | messagesUnblocked
  | other (tag : Nat)
deriving DecidableEq, Repr

/-- Embedding of `fftypes.Event` as used by the aggregator.  `id` and `reference` are
`*fftypes.UUID` in Go, hence `Option`. -/
structure Event where
  id : Option Nat
  sequence : Int
  type : EventType
  ns : String
  reference : Option Nat
deriving DecidableEq, Repr

/-- Embedding of `fftypes.Message` projected onto the fields the aggregator reads:
header id / namespace / context / group, its sequence, the nullable
`confirmed` timestamp, and the list of data references. -/
structure Message where
  id : Nat
  ns : String
  context : String
  group : Option Nat
  sequence : Int
  confirmed : Option Nat
  dataRefs : List Nat
deriving DecidableEq, Repr

/-- Embedding of `fftypes.Blocked`: the per-(namespace, context, group) blocker row. -/
structure Blocked where
  id : Nat
  ns : String
  context : String
  group : Option Nat
  created : Nat
  message : Option Nat
deriving DecidableEq, Repr

/-- The projection returned by `GetMessageRefs`. -/
structure MessageRef where
  id : Nat
  sequence : Int
deriving DecidableEq, Repr

/-- The per-batch lookahead index `eventsByRef`: a map from message
reference to the events of the current batch mentioning it, modelled as an
association list. -/
abbrev EventsByRef := List (Nat × List Event)

/-- Go map insertion `ebr[ref] = append(ebr[ref], event)`. -/
def ebrAppend (ebr : EventsByRef) (ref : Nat) (ev : Event) : EventsByRef :=
  match ebr with
  | [] => [(ref, [ev])]
  | (r, evs) :: rest =>
    if r == ref then (r, evs ++ [ev]) :: rest
    else (r, evs) :: ebrAppend rest ref ev

/-- Embeds `eventsByRef.hasAnyOf`: true iff some remaining event for `ref` has one
of the given types. -/
def hasAnyOf (ebr : EventsByRef) (ref : Nat) (types : List EventType) : Bool :=
  match ebr.find? (fun p => p.1 == ref) with
  | some p => p.2.any (fun ev => types.any (fun t => ev.type == t))
  | none => false

/-- Helper for `ebrRemove`: drop the first event of the entry list whose id
equals `eventID`; the flag reports whether one was found. -/
def removeFirstEvent (evs : List Event) (eventID : Nat) : List Event × Bool :=
  match evs with
  | [] => ([], false)
  | ev :: rest =>
    if ev.id == some eventID then (rest, true)
    else
      let r := removeFirstEvent rest eventID
      (ev :: r.1, r.2)

/-- Embeds `eventsByRef.remove`: remove the event with the given id from whichever
entry holds it, returning whether it was present. -/
def ebrRemove (ebr : EventsByRef) (eventID : Nat) : EventsByRef × Bool :=
  match ebr with
  | [] => ([], false)
  | (r, evs) :: rest =>
    let fe := removeFirstEvent evs eventID
    if fe.2 then ((r, fe.1) :: rest, true)
    else
      let tail := ebrRemove rest eventID
      ((r, evs) :: tail.1, tail.2)

/-- Errors surfaced by the embedding: `dbErr` models a transient store /
collaborator error, `nilPanic` a Go nil-pointer dereference, `indexPanic` an
out-of-range slice index. -/
inductive AggErr
  | dbErr
  | nilPanic
  | indexPanic
deriving DecidableEq, Repr

/-- The store state as seen by the aggregator, plus bookkeeping:
`dataAvail` is the set of locally available data blobs, `nextSeq` the next
sequence assigned on event insert, `nextID` the next fresh UUID, `now` the
current timestamp, and `failAt`/`ops` drive transient-error injection. -/
structure St where
  messages : List Message
  eventLog : List Event
  blocked : List Blocked
  offset : Int
  dataAvail : List Nat
  nextSeq : Int
  nextID : Nat
  now : Nat
  failAt : Option Nat
  ops : Nat
deriving DecidableEq, Repr

/-- One store (or external collaborator) call: ticks the operation counter
and fails when the injected failure index is reached. -/
def dbOp (st : St) : Except AggErr St :=
  if st.failAt == some st.ops then .error .dbErr
  else .ok { st with ops := st.ops + 1 }

/-- Pure part of `GetMessageByID`. -/
def findMessageByID (msgs : List Message) (ref : Option Nat) : Option Message :=
  msgs.find? (fun m => some m.id == ref)

/-- Insertion step for the ascending-by-`sequence` sort used by the
`Sort("sequence")` query modifiers. -/
def insertBySeq (m : Message) : List Message → List Message
  | [] => [m]
  | x :: xs => if m.sequence ≤ x.sequence then m :: x :: xs else x :: insertBySeq m xs

/-- Ascending sort by `sequence` (insertion sort). -/
def sortBySeq : List Message → List Message
  | [] => []
  | x :: xs => insertBySeq x (sortBySeq xs)

/-- Embeds `GetMessageByID(ctx, ref)`. -/
def getMessageByID (st : St) (ref : Option Nat) : Except AggErr (St × Option Message) :=
  match dbOp st with
  | .error e => .error e
  | .ok st => .ok (st, findMessageByID st.messages ref)

/-- Pure part of the `GetMessagesForData` query: messages whose `dataRefs`
contain the data id, in the namespace, not yet confirmed, by sequence. -/
def messagesForData (msgs : List Message) (dataRef : Option Nat) (ns : String) : List Message :=
  sortBySeq (msgs.filter (fun m =>
    (match dataRef with
     | some d => m.dataRefs.contains d
     | none => false)
    && m.ns == ns && m.confirmed == none))

/-- Embeds `GetMessagesForData(ctx, event.Reference, filter(namespace, confirmed
IS NULL).Sort("sequence"))`. -/
def getMessagesForData (st : St) (dataRef : Option Nat) (ns : String) :
    Except AggErr (St × List Message) :=
  match dbOp st with
  | .error e => .error e
  | .ok st => .ok (st, messagesForData st.messages dataRef ns)

/-- Embeds `GetEvents` with the filter `reference = msgID AND type =
message-sequenced-broadcast LIMIT 1` used by the envelope-arrived guard. -/
def getEventsForMessageSequenced (st : St) (msgID : Nat) :
    Except AggErr (St × List Event) :=
  match dbOp st with
  | .error e => .error e
  | .ok st => .ok (st, (st.eventLog.filter (fun e =>
      e.reference == some msgID && e.type == EventType.messageSequencedBroadcast)).take 1)

/-- Whether every data reference of `msg` is locally available (pure part of
`data.CheckDataAvailable`). -/
def dataAvailableFor (avail : List Nat) (msg : Message) : Bool :=
  msg.dataRefs.all (fun d => avail.contains d)

/-- Embeds `data.CheckDataAvailable(ctx, msg)`. -/
def checkDataAvailable (st : St) (msg : Message) : Except AggErr (St × Bool) :=
  match dbOp st with
  | .error e => .error e
  | .ok st => .ok (st, dataAvailableFor st.dataAvail msg)

/-- Pure part of `GetBlockedByContext`. -/
def findBlockedByContext (bs : List Blocked) (ns context : String) (group : Option Nat) :
    Option Blocked :=
  bs.find? (fun b => b.ns == ns && b.context == context && b.group == group)

/-- Embeds `GetBlockedByContext(ctx, ns, context, group)`. -/
def getBlockedByContext (st : St) (ns context : String) (group : Option Nat) :
    Except AggErr (St × Option Blocked) :=
  match dbOp st with
  | .error e => .error e
  | .ok st => .ok (st, findBlockedByContext st.blocked ns context group)

/-- Embeds `UpsertBlocked(ctx, blocked, false)` with a fresh id: plain insert. -/
def upsertBlocked (st : St) (b : Blocked) : Except AggErr St :=
  match dbOp st with
  | .error e => .error e
  | .ok st => .ok { st with blocked := st.blocked ++ [b] }

/-- Pure part of the `confirmed` update: set the field on the matching
row(s). -/
def setConfirmed (msgs : List Message) (msgID : Nat) (ts : Nat) : List Message :=
  msgs.map (fun m => if m.id == msgID then { m with confirmed := some ts } else m)

/-- Embeds `UpdateMessage(ctx, msgID, Set("confirmed", now))`. -/
def updateMessageConfirmed (st : St) (msgID : Nat) (ts : Nat) : Except AggErr St :=
  match dbOp st with
  | .error e => .error e
  | .ok st => .ok { st with messages := setConfirmed st.messages msgID ts }

/-- Embeds `fftypes.NewEvent(t, ns, ref)`: a fresh event with a new UUID; its
sequence is assigned by the store on insert. -/
def newEvent (st : St) (t : EventType) (ns : String) (ref : Nat) : St × Event :=
  ({ st with nextID := st.nextID + 1 },
   { id := some st.nextID, sequence := 0, type := t, ns := ns, reference := some ref })

/-- Embeds `UpsertEvent(ctx, ev, false)`: insert, assigning the next sequence. -/
def upsertEvent (st : St) (ev : Event) : Except AggErr St :=
  match dbOp st with
  | .error e => .error e
  | .ok st => .ok { st with
      eventLog := st.eventLog ++ [{ ev with sequence := st.nextSeq }],
      nextSeq := st.nextSeq + 1 }

/-- Pure part of the successor query of the unblock step: unconfirmed
messages of the same (namespace, group, context) strictly above `seq`, by
sequence, limit 1, projected to refs. -/
def unblockCandidates (msgs : List Message) (ns : String) (group : Option Nat)
    (context : String) (seq : Int) : List MessageRef :=
  ((sortBySeq (msgs.filter (fun m =>
      m.ns == ns && m.group == group && m.context == context
      && decide (seq < m.sequence) && m.confirmed == none))).take 1).map
    (fun m => { id := m.id, sequence := m.sequence })

/-- Embeds `GetMessageRefs` with the unblock filter. -/
def getMessageRefsUnconfirmedAfter (st : St) (ns : String) (group : Option Nat)
    (context : String) (seq : Int) : Except AggErr (St × List MessageRef) :=
  match dbOp st with
  | .error e => .error e
  | .ok st => .ok (st, unblockCandidates st.messages ns group context seq)

/-- Embeds `UpdateBlocked(ctx, blockedID, Set("message", msgID))`. -/
def updateBlockedMessage (st : St) (blockedID : Nat) (msgID : Nat) : Except AggErr St :=
  match dbOp st with
  | .error e => .error e
  | .ok st => .ok { st with blocked := st.blocked.map (fun b =>
      if b.id == blockedID then { b with message := some msgID } else b) }

/-- Embeds `DeleteBlocked(ctx, blockedID)`. -/
def deleteBlocked (st : St) (blockedID : Nat) : Except AggErr St :=
  match dbOp st with
  | .error e => .error e
  | .ok st => .ok { st with blocked := st.blocked.filter (fun b => !(b.id == blockedID)) }

/-- Embeds `fftypes.SystemNamespace`. -/
def SystemNamespace : String := "ff_system"

/-- Embeds `broadcast.HandleSystemBroadcast`: an external collaborator, out of
scope of the aggregator spec; it does not touch the entities modelled here
but may fail transiently, so it is one fallible operation. -/
def handleSystemBroadcast (st : St) (_msg : Message) : Except AggErr St := dbOp st

/-- Embeds `eventPoller.commitOffset`: persist the new offset value. -/
def commitOffset (st : St) (seq : Int) : Except AggErr St :=
  match dbOp st with
  | .error e => .error e
  | .ok st => .ok { st with offset := seq }

/-- Embeds `aggregator.checkUpdateContextBlocked`: look up the blocker of the
message's (namespace, context, group); if none exists and the message is not
complete, create one naming this message. -/
def checkUpdateContextBlocked (st : St) (msg : Message) (complete : Bool) :
    Except AggErr (St × Option Blocked) :=
  match getBlockedByContext st msg.ns msg.context msg.group with
  | .error e => .error e
  | .ok (st, blocked) =>
    match blocked with
    | none =>
      if !complete then
        match upsertBlocked { st with nextID := st.nextID + 1 }
            { id := st.nextID, ns := msg.ns, context := msg.context,
              group := msg.group, created := st.now, message := some msg.id } with
        | .error e => .error e
        | .ok st2 =>
          .ok (st2,
            some { id := st.nextID, ns := msg.ns, context := msg.context,
                   group := msg.group, created := st.now, message := some msg.id })
      else .ok (st, none)
    | some b => .ok (st, some b)

/-- The body of `aggregator.checkMessageComplete` after the envelope-arrived
guard (the triggering event is not consulted past the guard): data check,
context-block check, gating, confirmation and the unblock step. -/
def checkMessageCompleteMain (st : St) (msg : Message) (lookahead : EventsByRef) :
    Except AggErr (St × Bool) :=
  match checkDataAvailable st msg with
    | .error e => .error e
    | .ok (st, complete) =>
      match checkUpdateContextBlocked st msg complete with
      | .error e => .error e
      | .ok (st, blockedBy) =>
        if !complete || (match blockedBy with
                         | some b => !(b.message == some msg.id)
                         | none => false) then
          .ok (st, false)
        else
          match (if msg.ns == SystemNamespace then handleSystemBroadcast st msg
                 else .ok st) with
          | .error e => .error e
          | .ok st =>
            match updateMessageConfirmed st msg.id st.now with
            | .error e => .error e
            | .ok st =>
              match upsertEvent (newEvent st EventType.messageConfirmed msg.ns msg.id).1
                  (newEvent st EventType.messageConfirmed msg.ns msg.id).2 with
              | .error e => .error e
              | .ok st =>
                match blockedBy with
                | some b =>
                  if b.message == some msg.id then
                    match getMessageRefsUnconfirmedAfter st msg.ns msg.group
                        msg.context msg.sequence with
                    | .error e => .error e
                    | .ok (st, unblockable) =>
                      match unblockable with
                      | unblockMsg :: _ =>
                        match updateBlockedMessage st b.id unblockMsg.id with
                        | .error e => .error e
                        | .ok st =>
                          if hasAnyOf lookahead unblockMsg.id
                              [EventType.messageConfirmed,
                               EventType.messageSequencedBroadcast] then
                            .ok (st, false)
                          else
                            match upsertEvent (newEvent st EventType.messagesUnblocked
                                  msg.ns unblockMsg.id).1
                                (newEvent st EventType.messagesUnblocked
                                  msg.ns unblockMsg.id).2 with
                            | .error e => .error e
                            | .ok st => .ok (st, true)
                      | [] =>
                        match deleteBlocked st b.id with
                        | .error e => .error e
                        | .ok st => .ok (st, false)
                  else .ok (st, false)
                | none => .ok (st, false)

/-- Embeds `aggregator.checkMessageComplete`: the envelope-arrived guard — if the
triggering event does not reference this message, require at least one
`message-sequenced-broadcast` event for it in the log — followed by
`checkMessageCompleteMain`. -/
def checkMessageComplete (st : St) (msg : Message) (lookahead : EventsByRef)
    (event : Event) : Except AggErr (St × Bool) :=
  match (if event.reference == some msg.id then Except.ok (st, true)
         else match getEventsForMessageSequenced st msg.id with
           | .error e => .error e
           | .ok (st, found) => .ok (st, !(decide (found.length < 1)))) with
  | .error e => .error e
  | .ok (st, false) => .ok (st, false)
  | .ok (st, true) => checkMessageCompleteMain st msg lookahead

/-- The loop body of `processDataArrived`: for each unconfirmed message
referencing the data, skip if the lookahead holds an upcoming sequenced
event for it, otherwise run the completion check and OR the repolls. -/
def processDataArrivedLoop (st : St) (msgs : List Message) (lookahead : EventsByRef)
    (event : Event) (repoll : Bool) : Except AggErr (St × Bool) :=
  match msgs with
  | [] => .ok (st, repoll)
  | msg :: rest =>
    if hasAnyOf lookahead msg.id [EventType.messageSequencedBroadcast] then
      processDataArrivedLoop st rest lookahead event repoll
    else
      match checkMessageComplete st msg lookahead event with
      | .error e => .error e
      | .ok (st, msgRepoll) =>
        processDataArrivedLoop st rest lookahead event (repoll || msgRepoll)

/-- Embeds `aggregator.processDataArrived`. -/
def processDataArrived (st : St) (ns : String) (lookahead : EventsByRef)
    (event : Event) : Except AggErr (St × Bool) :=
  match getMessagesForData st event.reference ns with
  | .error e => .error e
  | .ok (st, msgs) => processDataArrivedLoop st msgs lookahead event false

/-- Embeds `aggregator.processEvent`: dispatch on the event type; every type other
than the two broadcast kinds falls into the inert default branch. -/
def processEvent (st : St) (batchRefs : EventsByRef) (event : Event) :
    Except AggErr (St × Bool) :=
  match event.type with
  | EventType.dataArrivedBroadcast => processDataArrived st event.ns batchRefs event
  | EventType.messageSequencedBroadcast =>
    match getMessageByID st event.reference with
    | .error e => .error e
    | .ok (st, mo) =>
      match mo with
      | some msg =>
        if msg.confirmed == none then checkMessageComplete st msg batchRefs event
        else .ok (st, false)
      | none => .ok (st, false)
  | _ => .ok (st, false)

/-- The lookahead-building preamble of `processEvents`:
`lookahead[*event.Reference] = append(...)` dereferences each event's
reference. -/
def buildLookahead (ebr : EventsByRef) : List Event → Except AggErr EventsByRef
  | [] => .ok ebr
  | ev :: rest =>
    match ev.reference with
    | none => .error .nilPanic
    | some r => buildLookahead (ebrAppend ebr r ev) rest

/-- The per-event loop of `processEvents`.  Note that the Go code assigns
`repoll, err = ag.processEvent(...)`, overwriting the batch-level repoll
with each event's result. -/
def processEventsLoop (st : St) (lookahead : EventsByRef) (events : List Event)
    (repoll : Bool) : Except AggErr (St × EventsByRef × Bool) :=
  match events with
  | [] => .ok (st, lookahead, repoll)
  | event :: rest =>
    match event.id with
    | none => .error .nilPanic
    | some eid =>
      match processEvent st (ebrRemove lookahead eid).1 event with
      | .error e => .error e
      | .ok (st, evRepoll) =>
        processEventsLoop st (ebrRemove lookahead eid).1 rest evRepoll

/-- Embeds `aggregator.processEvents`: build the lookahead, process each event in
order, commit the offset to the last event's sequence.  On error the Go
function returns the current repoll value alongside the error; the value is
discarded by its only caller, so the embedding surfaces just the error. -/
def processEvents (st : St) (events : List Event) : Except AggErr (St × Bool) :=
  match buildLookahead [] events with
  | .error e => .error e
  | .ok lookahead =>
    match processEventsLoop st lookahead events false with
    | .error e => .error e
    | .ok (st, _, repoll) =>
      match events.getLast? with
      | none => .error .indexPanic
      | some lastEvent =>
        match commitOffset st lastEvent.sequence with
        | .error e => .error e
        | .ok st => .ok (st, repoll)

/-- Embeds `aggregator.processEventRetryAndGroup`: run the batch inside
`RunAsGroup`; an error rolls the transaction back, leaving the store state
unchanged, and is reported to the poller. -/
def processEventRetryAndGroup (st : St) (events : List Event) :
    St × Bool × Option AggErr :=
  match processEvents st events with
  | .ok (st', repoll) => (st', repoll, none)
  | .error e => (st, false, some e)

/-- The `confirmed` field of the message with the given id, if present. -/
def confirmedOf (st : St) (msgID : Nat) : Option (Option Nat) :=
  (findMessageByID st.messages (some msgID)).map (fun m => m.confirmed)

/-- The repoll component of a successful aggregator result. -/
def repollOf (r : Except AggErr (St × Bool)) : Option Bool :=
  match r with
  | .ok (_, b) => some b
  | .error _ => none

/-- The state component of a successful aggregator result. -/
def stOf (r : Except AggErr (St × Bool)) : Option St :=
  match r with
  | .ok (st, _) => some st
  | .error _ => none

def c1_M1 : Message :=
  { id := 1, ns := "ns1", context := "ctx1", group := none,
    sequence := 10, confirmed := none, dataRefs := [101] }

def c1_M2 : Message :=
  { id := 2, ns := "ns1", context := "ctx1", group := none,
    sequence := 20, confirmed := none, dataRefs := [100] }

def c1_e5 : Event :=
  { id := some 50, sequence := 5, type := EventType.dataArrivedBroadcast,
    ns := "ns1", reference := some 100 }

def c1_e10 : Event :=
  { id := some 51, sequence := 10, type := EventType.messageSequencedBroadcast,
    ns := "ns1", reference := some 1 }

def c1_e20 : Event :=
  { id := some 52, sequence := 20, type := EventType.messageSequencedBroadcast,
    ns := "ns1", reference := some 2 }

def c1_st0 : St :=
  { messages := [c1_M1, c1_M2], eventLog := [c1_e5, c1_e10, c1_e20],
    blocked := [], offset := 0, dataAvail := [100],
    nextSeq := 21, nextID := 1000, now := 7, failAt := none, ops := 0 }

/-- Committed store state after the aggregator processes the batch
`[c1_e5]`. -/
def c1_after : St := (processEventRetryAndGroup c1_st0 [c1_e5]).1

def c2_M1 : Message :=
  { id := 1, ns := "ns1", context := "ctx1", group := none,
    sequence := 10, confirmed := none, dataRefs := [] }

def c2_M2 : Message :=
  { id := 2, ns := "ns1", context := "ctx1", group := none,
    sequence := 20, confirmed := none, dataRefs := [] }

def c2_b : Blocked :=
  { id := 500, ns := "ns1", context := "ctx1", group := none,
    created := 0, message := some 1 }

def c2_e10 : Event :=
  { id := some 60, sequence := 10, type := EventType.messageSequencedBroadcast,
    ns := "ns1", reference := some 1 }

def c2_e11 : Event :=
  { id := some 61, sequence := 11, type := EventType.messageConfirmed,
    ns := "ns1", reference := some 999 }

def c2_st0 : St :=
  { messages := [c2_M1, c2_M2], eventLog := [c2_e10, c2_e11],
    blocked := [c2_b], offset := 0, dataAvail := [],
    nextSeq := 12, nextID := 1000, now := 7, failAt := none, ops := 0 }

def c2_batch : List Event := [c2_e10, c2_e11]

def c4_st : St :=
  { messages := [], eventLog := [], blocked := [], offset := 0, dataAvail := [],
    nextSeq := 0, nextID := 77, now := 3, failAt := none, ops := 0 }

def c4_msg : Message :=
  { id := 8, ns := "ns1", context := "ctxA", group := some 4,
    sequence := 2, confirmed := none, dataRefs := [1] }

/-- No `message-sequenced-broadcast` event referencing the given message is
in the event log: the envelope has not been sequenced yet. -/
def noSequencedEventFor (st : St) (msgID : Nat) : Prop :=
  ∀ e ∈ st.eventLog,
    ¬(e.reference = some msgID ∧ e.type = EventType.messageSequencedBroadcast)

def c3_msg : Message :=
  { id := 8, ns := "ns1", context := "ctxA", group := none,
    sequence := 2, confirmed := none, dataRefs := [] }

def c3_b : Blocked :=
  { id := 70, ns := "ns1", context := "ctxA", group := none,
    created := 1, message := some 9 }

def c3_st : St :=
  { messages := [c3_msg], eventLog := [], blocked := [c3_b], offset := 0,
    dataAvail := [], nextSeq := 3, nextID := 90, now := 5, failAt := none, ops := 0 }

def c3_ev : Event :=
  { id := some 80, sequence := 2, type := EventType.messageSequencedBroadcast,
    ns := "ns1", reference := some 8 }

def c6_st : St :=
  { messages := [], eventLog := [], blocked := [], offset := 0, dataAvail := [],
    nextSeq := 0, nextID := 0, now := 0, failAt := none, ops := 0 }

def c6_ev : Event :=
  { id := some 1, sequence := 9, type := EventType.messagesUnblocked,
    ns := "ns1", reference := some 2 }

/-- Modelled from the spec, §4.4 `processDataArrived`, for comparison with
the embedding of the source: query all messages whose `dataRefs` contain
the data id, filtered to the namespace and `confirmed IS NULL`, ordered by
`sequence`; for each such message M, if the lookahead has a remaining
`message-sequenced-broadcast` event for M skip it, otherwise run
`checkMessageComplete(M, e)` and OR its repoll into the local result. -/
def processDataArrivedSpec (st : St) (ns : String) (lookahead : EventsByRef)
    (event : Event) : Except AggErr (St × Bool) :=
  match getMessagesForData st event.reference ns with
  | .error e => .error e
  | .ok (st1, msgs) =>
    List.foldlM
      (fun acc m =>
        if hasAnyOf lookahead m.id [EventType.messageSequencedBroadcast] then
          Except.ok acc
        else
          match checkMessageComplete acc.1 m lookahead event with
          | .error e => .error e
          | .ok (st2, mr) => Except.ok (st2, acc.2 || mr))
      (st1, false) msgs

def c8_st : St :=
  { messages := [], eventLog := [], blocked := [], offset := 41, dataAvail := [],
    nextSeq := 0, nextID := 0, now := 0, failAt := some 0, ops := 0 }

def c8_ev : Event :=
  { id := some 5, sequence := 42, type := EventType.messageSequencedBroadcast,
    ns := "ns1", reference := some 6 }

/-- The embedding's result is free of the two panic-modelling errors
(nil-pointer dereference, out-of-range batch index). -/
def panicFree (r : Except AggErr (St × Bool)) : Prop :=
  r ≠ .error AggErr.nilPanic ∧ r ≠ .error AggErr.indexPanic

def c10_st : St :=
  { messages := [], eventLog := [], blocked := [], offset := 0, dataAvail := [],
    nextSeq := 0, nextID := 0, now := 0, failAt := none, ops := 0 }

def c10_evNilRef : Event :=
  { id := some 1, sequence := 1, type := EventType.other 0,
    ns := "ns1", reference := none }

def c10_evNilID : Event :=
  { id := none, sequence := 1, type := EventType.other 0,
    ns := "ns1", reference := some 5 }

def c10_good : Event :=
  { id := some 3, sequence := 1, type := EventType.other 7,
    ns := "ns1", reference := some 4 }

def c5_M1 : Message :=
  { id := 1, ns := "ns1", context := "ctx1", group := none,
    sequence := 10, confirmed := none, dataRefs := [] }

def c5_M2 : Message :=
  { id := 2, ns := "ns1", context := "ctx1", group := none,
    sequence := 20, confirmed := none, dataRefs := [] }

def c5_b : Blocked :=
  { id := 500, ns := "ns1", context := "ctx1", group := none,
    created := 0, message := some 1 }

def c5_ev : Event :=
  { id := some 60, sequence := 10, type := EventType.messageSequencedBroadcast,
    ns := "ns1", reference := some 1 }

def c5_st : St :=
  { messages := [c5_M1, c5_M2], eventLog := [c5_ev],
    blocked := [c5_b], offset := 0, dataAvail := [],
    nextSeq := 11, nextID := 900, now := 7, failAt := none, ops := 0 }

/-- Claim C1: refuted on the code.  The claim says that within each
(namespace, context, group) confirmations happen in strictly increasing
sequence order, so a later-sequenced message is never confirmed while an
earlier-sequenced one is unconfirmed.  Processing the batch `[c1_e5]` from
`c1_st0` succeeds (no error) and confirms `c1_M2` (sequence 20) while
`c1_M1` (sequence 10) of the same (namespace, context, group) remains
unconfirmed: the envelope-arrived guard of `checkMessageComplete` only
checks that a `message-sequenced-broadcast` event for `c1_M2` exists in the
log, not that it (or `c1_M1`'s) has been processed, and no blocker exists
yet for the context, so the data-arrival path confirms `c1_M2` out of
order. -/
theorem C1_out_of_order_confirmation :
    (processEventRetryAndGroup c1_st0 [c1_e5]).2.2 = none
    ∧ confirmedOf c1_after c1_M2.id = some (some 7)
    ∧ confirmedOf c1_after c1_M1.id = some none
    ∧ c1_M1.sequence < c1_M2.sequence
    ∧ c1_M1.ns = c1_M2.ns ∧ c1_M1.context = c1_M2.context
    ∧ c1_M1.group = c1_M2.group := by decide

/-- Claim C2: refuted on the code.  The claim says the repoll flag returned
by `processEvents` is the logical OR of the per-event `processEvent`
results.  On the batch `c2_batch` the processing succeeds; the first
sub-call (with the lookahead as it stands when that event is processed)
returns repoll = true, the second returns repoll = false, so the OR is
true — yet `processEvents` returns false, because the Go loop assigns
`repoll, err = ag.processEvent(...)`, overwriting the batch-level flag with
each event's result instead of OR-folding it. -/
theorem C2_repoll_overwritten_not_or_folded :
    (processEventRetryAndGroup c2_st0 c2_batch).2.2 = none
    ∧ (processEventRetryAndGroup c2_st0 c2_batch).2.1 = false
    ∧ repollOf (processEvent c2_st0 [(1, []), (999, [c2_e11])] c2_e10) = some true
    ∧ (stOf (processEvent c2_st0 [(1, []), (999, [c2_e11])] c2_e10)).map
        (fun st => repollOf (processEvent st [(1, []), (999, [])] c2_e11))
      = some (some false) := by decide

/-- With no injected failure, a store call just ticks the counter. -/
theorem dbOp_eq (st : St) (hf : st.failAt = none) :
    dbOp st = .ok { st with ops := st.ops + 1 } := by
  simp [dbOp, hf]

/-- Claim C9: for a `message-sequenced-broadcast` event whose referenced
message is absent from the store or already confirmed, `processEvent`
returns `(false, nil)` after the single `GetMessageByID` read, with no
store write (the state changes only by the read's operation tick) and
without reaching `checkMessageComplete`. -/
theorem C9_sequenced_missing_or_confirmed_noop
    (st : St) (la : EventsByRef) (ev : Event)
    (hf : st.failAt = none)
    (ht : ev.type = EventType.messageSequencedBroadcast)
    (hmsg : ∀ m ∈ st.messages, some m.id = ev.reference → m.confirmed ≠ none) :
    processEvent st la ev = .ok ({ st with ops := st.ops + 1 }, false) := by
  unfold processEvent
  rw [ht]
  unfold getMessageByID
  rw [dbOp_eq st hf]
  cases hfind : findMessageByID st.messages ev.reference with
  | none => simp [hfind]
  | some m =>
    have hp := List.find?_some hfind
    have hmem := List.mem_of_find?_eq_some hfind
    have hid : some m.id = ev.reference := by
      simpa using hp
    have hconf : m.confirmed ≠ none := hmsg m hmem hid
    have : (m.confirmed == none) = false := by
      simpa using hconf
    simp [hfind, this]

/-- Witness for C9: a concrete store holding only an already-confirmed
message, and a sequenced event referencing it. -/
theorem C9_witness :
    processEvent
      { messages := [{ id := 3, ns := "ns1", context := "ctx1", group := none,
                       sequence := 4, confirmed := some 1, dataRefs := [] }],
        eventLog := [], blocked := [], offset := 0, dataAvail := [],
        nextSeq := 5, nextID := 10, now := 2, failAt := none, ops := 0 }
      []
      { id := some 9, sequence := 4, type := EventType.messageSequencedBroadcast,
        ns := "ns1", reference := some 3 }
    = .ok ({ messages := [{ id := 3, ns := "ns1", context := "ctx1", group := none,
                            sequence := 4, confirmed := some 1, dataRefs := [] }],
             eventLog := [], blocked := [], offset := 0, dataAvail := [],
             nextSeq := 5, nextID := 10, now := 2, failAt := none, ops := 1 }, false) :=
  C9_sequenced_missing_or_confirmed_noop _ _ _ rfl rfl (by decide)

/-- Claim C4: `checkUpdateContextBlocked` creates a new `Blocked` row with
`message = msg.id` exactly when no blocker exists for the message's
(namespace, context, group) and the message is not complete; an existing
blocker is returned with none of its fields modified (the store state
changes only by the lookup's operation tick); and when none exists and the
message is complete, no blocker is created and `nil` is returned. -/
theorem C4_checkUpdateContextBlocked_frame
    (st : St) (msg : Message) (complete : Bool) (hf : st.failAt = none) :
    (∀ b0, findBlockedByContext st.blocked msg.ns msg.context msg.group = some b0 →
      checkUpdateContextBlocked st msg complete
        = .ok ({ st with ops := st.ops + 1 }, some b0))
    ∧ (findBlockedByContext st.blocked msg.ns msg.context msg.group = none →
        complete = true →
        checkUpdateContextBlocked st msg complete
          = .ok ({ st with ops := st.ops + 1 }, none))
    ∧ (findBlockedByContext st.blocked msg.ns msg.context msg.group = none →
        complete = false →
        checkUpdateContextBlocked st msg complete
          = .ok ({ st with
                     blocked := st.blocked ++
                       [{ id := st.nextID, ns := msg.ns, context := msg.context,
                          group := msg.group, created := st.now,
                          message := some msg.id }],
                     nextID := st.nextID + 1, ops := st.ops + 2 },
                 some { id := st.nextID, ns := msg.ns, context := msg.context,
                        group := msg.group, created := st.now,
                        message := some msg.id })) := by
  refine ⟨?_, ?_, ?_⟩
  · intro b0 hb0
    unfold checkUpdateContextBlocked getBlockedByContext
    rw [dbOp_eq st hf]
    simp [hb0]
  · intro hnone hc
    unfold checkUpdateContextBlocked getBlockedByContext
    rw [dbOp_eq st hf]
    simp [hnone, hc]
  · intro hnone hc
    unfold checkUpdateContextBlocked getBlockedByContext
    rw [dbOp_eq st hf]
    simp only [hnone, hc]
    unfold upsertBlocked
    simp [dbOp, hf]

/-- Witness for C4: from a store with no blocker, checking an incomplete
message creates a blocker whose `message` is the message's own id. -/
theorem C4_witness :
    findBlockedByContext c4_st.blocked c4_msg.ns c4_msg.context c4_msg.group = none
    ∧ checkUpdateContextBlocked c4_st c4_msg false
      = .ok ({ c4_st with
                 blocked := c4_st.blocked ++
                   [{ id := c4_st.nextID, ns := c4_msg.ns, context := c4_msg.context,
                      group := c4_msg.group, created := c4_st.now,
                      message := some c4_msg.id }],
                 nextID := c4_st.nextID + 1, ops := c4_st.ops + 2 },
             some { id := c4_st.nextID, ns := c4_msg.ns, context := c4_msg.context,
                    group := c4_msg.group, created := c4_st.now,
                    message := some c4_msg.id }) :=
  ⟨by decide, (C4_checkUpdateContextBlocked_frame c4_st c4_msg false rfl).2.2 (by decide) rfl⟩

/-- Guard unfolding: when the triggering event references the message, the
completion check proceeds directly to the main body. -/
theorem checkMessageComplete_ref_eq (st : St) (msg : Message) (la : EventsByRef)
    (ev : Event) (h : (ev.reference == some msg.id) = true) :
    checkMessageComplete st msg la ev = checkMessageCompleteMain st msg la := by
  unfold checkMessageComplete
  rw [h]
  simp

/-- Guard unfolding: triggered by data arrival with no sequenced event for
the message in the log, the check returns `(false, nil)` after one read. -/
theorem checkMessageComplete_guard_none (st : St) (msg : Message) (la : EventsByRef)
    (ev : Event) (hf : st.failAt = none)
    (h : (ev.reference == some msg.id) = false)
    (hq : st.eventLog.filter (fun e =>
      e.reference == some msg.id && e.type == EventType.messageSequencedBroadcast) = []) :
    checkMessageComplete st msg la ev = .ok ({ st with ops := st.ops + 1 }, false) := by
  unfold checkMessageComplete getEventsForMessageSequenced
  rw [h]
  simp [dbOp, hf, hq]

/-- Guard unfolding: triggered by data arrival with a sequenced event for
the message present, the check proceeds to the main body after one read. -/
theorem checkMessageComplete_guard_found (st : St) (msg : Message) (la : EventsByRef)
    (ev : Event) (x : Event) (xs : List Event) (hf : st.failAt = none)
    (h : (ev.reference == some msg.id) = false)
    (hq : st.eventLog.filter (fun e =>
      e.reference == some msg.id && e.type == EventType.messageSequencedBroadcast) = x :: xs) :
    checkMessageComplete st msg la ev
      = checkMessageCompleteMain { st with ops := st.ops + 1 } msg la := by
  unfold checkMessageComplete getEventsForMessageSequenced
  rw [h]
  simp [dbOp, hf, hq]

/-- Main-body unfolding: data not all available and a blocker already
present for the context — return `(false, nil)`, store untouched. -/
theorem checkMessageCompleteMain_incomplete_existing (st : St) (msg : Message)
    (la : EventsByRef) (b : Blocked) (hf : st.failAt = none)
    (hdata : dataAvailableFor st.dataAvail msg = false)
    (hb : findBlockedByContext st.blocked msg.ns msg.context msg.group = some b) :
    checkMessageCompleteMain st msg la = .ok ({ st with ops := st.ops + 2 }, false) := by
  unfold checkMessageCompleteMain checkDataAvailable checkUpdateContextBlocked
    getBlockedByContext
  simp [dbOp, hf, hdata, hb]

/-- Main-body unfolding: data not all available and no blocker for the
context — create the blocker naming this message, return `(false, nil)`. -/
theorem checkMessageCompleteMain_incomplete_none (st : St) (msg : Message)
    (la : EventsByRef) (hf : st.failAt = none)
    (hdata : dataAvailableFor st.dataAvail msg = false)
    (hb : findBlockedByContext st.blocked msg.ns msg.context msg.group = none) :
    checkMessageCompleteMain st msg la
      = .ok ({ st with
                 blocked := st.blocked ++
                   [{ id := st.nextID, ns := msg.ns, context := msg.context,
                      group := msg.group, created := st.now,
                      message := some msg.id }],
                 nextID := st.nextID + 1, ops := st.ops + 3 }, false) := by
  unfold checkMessageCompleteMain checkDataAvailable checkUpdateContextBlocked
    getBlockedByContext upsertBlocked
  simp [dbOp, hf, hdata, hb]

/-- Main-body unfolding: a blocker for the context names a different
message — gated out, return `(false, nil)`, store untouched. -/
theorem checkMessageCompleteMain_blocked_other (st : St) (msg : Message)
    (la : EventsByRef) (b : Blocked) (hf : st.failAt = none)
    (hb : findBlockedByContext st.blocked msg.ns msg.context msg.group = some b)
    (hbm : (b.message == some msg.id) = false) :
    checkMessageCompleteMain st msg la = .ok ({ st with ops := st.ops + 2 }, false) := by
  unfold checkMessageCompleteMain checkDataAvailable checkUpdateContextBlocked
    getBlockedByContext
  simp [dbOp, hf, hb, hbm]

/-- Claim C3: `checkMessageComplete` returns `(false, nil)` — performing no
message update, no event insertion and no blocker mutation beyond possibly
creating a new blocker (whose `message` is the message's own id) — whenever
(a) the triggering event's reference is not the message's id and no
`message-sequenced-broadcast` event with that reference exists, (b) the
message's data is not all available, or (c) a blocker exists for the
message's (namespace, context, group) whose `message` is not the message's
id. -/
theorem C3_not_confirmable_no_effects
    (st : St) (msg : Message) (la : EventsByRef) (ev : Event)
    (hf : st.failAt = none)
    (hcase :
      (ev.reference ≠ some msg.id ∧ noSequencedEventFor st msg.id)
      ∨ dataAvailableFor st.dataAvail msg = false
      ∨ (∃ b, findBlockedByContext st.blocked msg.ns msg.context msg.group = some b
              ∧ b.message ≠ some msg.id)) :
    ∃ st', checkMessageComplete st msg la ev = .ok (st', false)
      ∧ st'.messages = st.messages
      ∧ st'.eventLog = st.eventLog
      ∧ (st'.blocked = st.blocked
         ∨ ∃ nb, st'.blocked = st.blocked ++ [nb] ∧ nb.message = some msg.id)
      ∧ st'.offset = st.offset
      ∧ st'.dataAvail = st.dataAvail := by
  rcases hcase with ⟨hne, hns⟩ | hdata | ⟨b, hb, hbm⟩
  · -- (a) triggered by data arrival, envelope not sequenced yet
    have h : (ev.reference == some msg.id) = false := by simpa using hne
    have hq : st.eventLog.filter (fun e =>
        e.reference == some msg.id
        && e.type == EventType.messageSequencedBroadcast) = [] := by
      rw [List.filter_eq_nil_iff]
      intro e he
      have := hns e he
      simp only [Bool.and_eq_true, beq_iff_eq]
      tauto
    exact ⟨_, checkMessageComplete_guard_none st msg la ev hf h hq,
      rfl, rfl, Or.inl rfl, rfl, rfl⟩
  · -- (b) data not all available
    by_cases h : (ev.reference == some msg.id) = true
    · cases hbk : findBlockedByContext st.blocked msg.ns msg.context msg.group with
      | some b =>
        exact ⟨_, (checkMessageComplete_ref_eq st msg la ev h).trans
            (checkMessageCompleteMain_incomplete_existing st msg la b hf hdata hbk),
          rfl, rfl, Or.inl rfl, rfl, rfl⟩
      | none =>
        exact ⟨_, (checkMessageComplete_ref_eq st msg la ev h).trans
            (checkMessageCompleteMain_incomplete_none st msg la hf hdata hbk),
          rfl, rfl, Or.inr ⟨_, rfl, rfl⟩, rfl, rfl⟩
    · have h' : (ev.reference == some msg.id) = false := by
        simpa using h
      cases hq : st.eventLog.filter (fun e =>
          e.reference == some msg.id
          && e.type == EventType.messageSequencedBroadcast) with
      | nil =>
        exact ⟨_, checkMessageComplete_guard_none st msg la ev hf h' hq,
          rfl, rfl, Or.inl rfl, rfl, rfl⟩
      | cons x xs =>
        cases hbk : findBlockedByContext st.blocked msg.ns msg.context msg.group with
        | some b =>
          exact ⟨_, (checkMessageComplete_guard_found st msg la ev x xs hf h' hq).trans
              (checkMessageCompleteMain_incomplete_existing _ msg la b (by simpa using hf)
                (by simpa using hdata) (by simpa using hbk)),
            rfl, rfl, Or.inl rfl, rfl, rfl⟩
        | none =>
          exact ⟨_, (checkMessageComplete_guard_found st msg la ev x xs hf h' hq).trans
              (checkMessageCompleteMain_incomplete_none _ msg la (by simpa using hf)
                (by simpa using hdata) (by simpa using hbk)),
            rfl, rfl, Or.inr ⟨_, rfl, rfl⟩, rfl, rfl⟩
  · -- (c) blocker held by a different message
    have hbm' : (b.message == some msg.id) = false := by simpa using hbm
    by_cases h : (ev.reference == some msg.id) = true
    · exact ⟨_, (checkMessageComplete_ref_eq st msg la ev h).trans
          (checkMessageCompleteMain_blocked_other st msg la b hf hb hbm'),
        rfl, rfl, Or.inl rfl, rfl, rfl⟩
    · have h' : (ev.reference == some msg.id) = false := by
        simpa using h
      cases hq : st.eventLog.filter (fun e =>
          e.reference == some msg.id
          && e.type == EventType.messageSequencedBroadcast) with
      | nil =>
        exact ⟨_, checkMessageComplete_guard_none st msg la ev hf h' hq,
          rfl, rfl, Or.inl rfl, rfl, rfl⟩
      | cons x xs =>
        exact ⟨_, (checkMessageComplete_guard_found st msg la ev x xs hf h' hq).trans
            (checkMessageCompleteMain_blocked_other _ msg la b (by simpa using hf)
              (by simpa using hb) hbm'),
          rfl, rfl, Or.inl rfl, rfl, rfl⟩

/-- Witness for C3, case (c): a blocker held by a different message gates
the check out with no effect on the store. -/
theorem C3_witness :
    (findBlockedByContext c3_st.blocked c3_msg.ns c3_msg.context c3_msg.group = some c3_b
      ∧ c3_b.message ≠ some c3_msg.id)
    ∧ ∃ st', checkMessageComplete c3_st c3_msg [] c3_ev = .ok (st', false)
        ∧ st'.messages = c3_st.messages
        ∧ st'.eventLog = c3_st.eventLog
        ∧ (st'.blocked = c3_st.blocked
           ∨ ∃ nb, st'.blocked = c3_st.blocked ++ [nb] ∧ nb.message = some c3_msg.id)
        ∧ st'.offset = c3_st.offset
        ∧ st'.dataAvail = c3_st.dataAvail :=
  ⟨⟨by decide, by decide⟩,
    C3_not_confirmable_no_effects c3_st c3_msg [] c3_ev rfl
      (Or.inr (Or.inr ⟨c3_b, by decide, by decide⟩))⟩

/-- Any event whose type is not one of the two broadcast kinds falls into
the default branch of `processEvent`: no store access, `(false, nil)`. -/
theorem processEvent_inert (st : St) (la : EventsByRef) (ev : Event)
    (h1 : ev.type ≠ EventType.dataArrivedBroadcast)
    (h2 : ev.type ≠ EventType.messageSequencedBroadcast) :
    processEvent st la ev = .ok (st, false) := by
  cases hty : ev.type with
  | dataArrivedBroadcast => exact absurd hty h1
  | messageSequencedBroadcast => exact absurd hty h2
  | messageConfirmed => unfold processEvent; rw [hty]
  | messagesUnblocked => unfold processEvent; rw [hty]
  | other t => unfold processEvent; rw [hty]

/-- When every event has a non-nil reference, building the lookahead
succeeds. -/
theorem buildLookahead_ok :
    ∀ (events : List Event) (acc : EventsByRef),
    (∀ e ∈ events, e.reference ≠ none) →
    ∃ la, buildLookahead acc events = .ok la
  | [], acc, _ => ⟨acc, rfl⟩
  | ev :: rest, acc, hwf => by
    cases href : ev.reference with
    | none => exact absurd href (hwf ev (List.mem_cons_self _ _))
    | some r =>
      obtain ⟨la, hla⟩ := buildLookahead_ok rest (ebrAppend acc r ev)
        (fun e he => hwf e (List.mem_cons_of_mem _ he))
      refine ⟨la, ?_⟩
      unfold buildLookahead
      rw [href]
      exact hla

/-- A batch of inert events leaves the store and state untouched in the
per-event loop; the resulting repoll is the initial one for the empty batch
and false otherwise (each event overwrites it with false). -/
theorem processEventsLoop_inert :
    ∀ (events : List Event) (st : St) (la : EventsByRef) (r : Bool),
    (∀ e ∈ events, e.type ≠ EventType.dataArrivedBroadcast
       ∧ e.type ≠ EventType.messageSequencedBroadcast) →
    (∀ e ∈ events, e.id ≠ none) →
    ∃ la', processEventsLoop st la events r = .ok (st, la', events.isEmpty && r)
  | [], st, la, r, _, _ => ⟨la, by simp [processEventsLoop]⟩
  | ev :: rest, st, la, r, hall, hid => by
    cases hevid : ev.id with
    | none => exact absurd hevid (hid ev (List.mem_cons_self _ _))
    | some eid =>
      obtain ⟨la', hla'⟩ := processEventsLoop_inert rest st ((ebrRemove la eid).1) false
        (fun e he => hall e (List.mem_cons_of_mem _ he))
        (fun e he => hid e (List.mem_cons_of_mem _ he))
      refine ⟨la', ?_⟩
      unfold processEventsLoop
      rw [hevid]
      simp only [processEvent_inert st _ ev (hall ev (List.mem_cons_self _ _)).1
        (hall ev (List.mem_cons_self _ _)).2]
      simpa using hla'

/-- Claim C6: every event whose type is `message-confirmed`,
`messages-unblocked`, or any type other than the two broadcast kinds is
inert: `processEvent` performs no store read or write and returns
`(false, nil)` with the state untouched; consequently a batch of only such
events produces no store write other than the offset commit (the final
state differs from the initial one only in `offset` and the single
operation tick of the commit). -/
theorem C6_derived_events_inert
    (st : St) (la : EventsByRef) (ev : Event) (events : List Event)
    (hev : ev.type ≠ EventType.dataArrivedBroadcast
           ∧ ev.type ≠ EventType.messageSequencedBroadcast)
    (hall : ∀ e ∈ events, e.type ≠ EventType.dataArrivedBroadcast
           ∧ e.type ≠ EventType.messageSequencedBroadcast)
    (hwf : ∀ e ∈ events, e.id ≠ none ∧ e.reference ≠ none)
    (hne : events ≠ [])
    (hf : st.failAt = none) :
    processEvent st la ev = .ok (st, false)
    ∧ ∃ lastEv, events.getLast? = some lastEv
        ∧ processEvents st events
          = .ok ({ st with offset := lastEv.sequence, ops := st.ops + 1 }, false) := by
  refine ⟨processEvent_inert st la ev hev.1 hev.2, ?_⟩
  obtain ⟨lb, hlb⟩ := buildLookahead_ok events [] (fun e he => (hwf e he).2)
  obtain ⟨la', hla'⟩ := processEventsLoop_inert events st lb false hall
    (fun e he => (hwf e he).1)
  have hie : events.isEmpty = false := by
    cases events with
    | nil => exact absurd rfl hne
    | cons a as => rfl
  rw [hie, Bool.false_and] at hla'
  obtain ⟨lastEv, hlast⟩ : ∃ lastEv, events.getLast? = some lastEv := by
    cases hL : events.getLast? with
    | some x => exact ⟨x, rfl⟩
    | none =>
      cases events with
      | nil => exact absurd rfl hne
      | cons a as => simp at hL
  refine ⟨lastEv, hlast, ?_⟩
  unfold processEvents
  simp only [hlb, hla', hlast]
  unfold commitOffset
  rw [dbOp_eq st hf]

/-- Witness for C6: a batch holding one `messages-unblocked` event only
commits the offset. -/
theorem C6_witness :
    processEvent c6_st [] c6_ev = .ok (c6_st, false)
    ∧ ∃ lastEv, [c6_ev].getLast? = some lastEv
        ∧ processEvents c6_st [c6_ev]
          = .ok ({ c6_st with offset := lastEv.sequence, ops := c6_st.ops + 1 }, false) :=
  C6_derived_events_inert c6_st [] c6_ev [c6_ev]
    (by decide) (by decide) (by decide) (by decide) rfl

theorem mem_insertBySeq (m a : Message) :
    ∀ (l : List Message), a ∈ insertBySeq m l ↔ a = m ∨ a ∈ l
  | [] => by simp [insertBySeq]
  | x :: xs => by
    by_cases h : m.sequence ≤ x.sequence
    · simp [insertBySeq, h]
    · simp only [insertBySeq, if_neg h, List.mem_cons, mem_insertBySeq m a xs]
      tauto

theorem sorted_insertBySeq (m : Message) :
    ∀ (l : List Message), l.Pairwise (fun a b => a.sequence ≤ b.sequence) →
    (insertBySeq m l).Pairwise (fun a b => a.sequence ≤ b.sequence)
  | [], _ => by simp [insertBySeq]
  | x :: xs, h => by
    rcases List.pairwise_cons.mp h with ⟨hx, hxs⟩
    by_cases hle : m.sequence ≤ x.sequence
    · simp only [insertBySeq, if_pos hle]
      refine List.pairwise_cons.mpr ⟨?_, h⟩
      intro b hb
      rcases List.mem_cons.mp hb with rfl | hbxs
      · exact hle
      · exact le_trans hle (hx b hbxs)
    · simp only [insertBySeq, if_neg hle]
      refine List.pairwise_cons.mpr ⟨?_, sorted_insertBySeq m xs hxs⟩
      intro b hb
      rcases (mem_insertBySeq m b xs).mp hb with rfl | hbxs
      · exact le_of_not_le hle
      · exact hx b hbxs

theorem sortBySeq_mem (a : Message) : ∀ (l : List Message), a ∈ sortBySeq l ↔ a ∈ l
  | [] => Iff.rfl
  | x :: xs => by
    simp [sortBySeq, mem_insertBySeq, sortBySeq_mem a xs]

theorem sortBySeq_sorted : ∀ (l : List Message),
    (sortBySeq l).Pairwise (fun a b => a.sequence ≤ b.sequence)
  | [] => List.Pairwise.nil
  | x :: xs => sorted_insertBySeq x (sortBySeq xs) (sortBySeq_sorted xs)

/-- The explicit-recursion loop of the embedding equals the OR-folding
traversal written from the spec's words. -/
theorem processDataArrivedLoop_eq_foldlM :
    ∀ (msgs : List Message) (st : St) (la : EventsByRef) (ev : Event) (r : Bool),
    processDataArrivedLoop st msgs la ev r
      = List.foldlM
          (fun acc m =>
            if hasAnyOf la m.id [EventType.messageSequencedBroadcast] then
              Except.ok acc
            else
              match checkMessageComplete acc.1 m la ev with
              | .error e => .error e
              | .ok (st2, mr) => Except.ok (st2, acc.2 || mr))
          (st, r) msgs
  | [], st, la, ev, r => rfl
  | msg :: rest, st, la, ev, r => by
    rw [List.foldlM_cons]
    unfold processDataArrivedLoop
    by_cases h : hasAnyOf la msg.id [EventType.messageSequencedBroadcast] = true
    · rw [if_pos h, if_pos h, processDataArrivedLoop_eq_foldlM rest st la ev r]
      rfl
    · rw [if_neg h, if_neg h]
      cases hc : checkMessageComplete st msg la ev with
      | error e => rfl
      | ok p =>
        obtain ⟨st2, mr⟩ := p
        show processDataArrivedLoop st2 rest la ev (r || mr) = _
        rw [processDataArrivedLoop_eq_foldlM rest st2 la ev (r || mr)]
        rfl

/-- Claim C7: `processDataArrived` queries exactly the unconfirmed messages
of the event's namespace whose `dataRefs` contain the event's data
reference, in ascending `sequence` order, and processes them by skipping a
message exactly when the lookahead has a remaining sequenced event for it,
otherwise running `checkMessageComplete` and OR-ing the repoll — i.e. it
coincides with the traversal modelled from the spec's words. -/
theorem C7_processDataArrived_follows_spec
    (st : St) (ns : String) (la : EventsByRef) (ev : Event) :
    processDataArrived st ns la ev = processDataArrivedSpec st ns la ev
    ∧ (∀ m, m ∈ messagesForData st.messages ev.reference ns
        ↔ m ∈ st.messages
          ∧ (∃ d, ev.reference = some d ∧ m.dataRefs.contains d = true)
          ∧ m.ns = ns ∧ m.confirmed = none)
    ∧ (messagesForData st.messages ev.reference ns).Pairwise
        (fun a b => a.sequence ≤ b.sequence) := by
  refine ⟨?_, ?_, ?_⟩
  · unfold processDataArrived processDataArrivedSpec
    cases hq : getMessagesForData st ev.reference ns with
    | error e => rfl
    | ok p =>
      obtain ⟨st1, msgs⟩ := p
      exact processDataArrivedLoop_eq_foldlM msgs st1 la ev false
  · intro m
    unfold messagesForData
    rw [sortBySeq_mem, List.mem_filter]
    cases href : ev.reference with
    | none => simp
    | some d => simp [Bool.and_eq_true, beq_iff_eq, and_assoc]
  · exact sortBySeq_sorted _

/-- Step equation of the per-event loop for an event with a nil id: the Go
code would dereference the nil pointer. -/
theorem processEventsLoop_cons_none (st : St) (la : EventsByRef) (ev : Event)
    (rest : List Event) (r : Bool) (hid : ev.id = none) :
    processEventsLoop st la (ev :: rest) r = .error AggErr.nilPanic := by
  unfold processEventsLoop
  rw [hid]

/-- Step equation of the per-event loop for an event with a proper id. -/
theorem processEventsLoop_cons_some (st : St) (la : EventsByRef) (ev : Event)
    (rest : List Event) (r : Bool) (eid : Nat) (hid : ev.id = some eid) :
    processEventsLoop st la (ev :: rest) r
      = match processEvent st (ebrRemove la eid).1 ev with
        | .error e => .error e
        | .ok (st2, evRepoll) =>
          processEventsLoop st2 (ebrRemove la eid).1 rest evRepoll := by
  conv_lhs => unfold processEventsLoop
  rw [hid]

/-- Sequential decomposition of the per-event loop over an append. -/
theorem processEventsLoop_append :
    ∀ (pre rest : List Event) (st : St) (la : EventsByRef) (r : Bool)
      (st1 : St) (la1 : EventsByRef) (r1 : Bool),
    processEventsLoop st la pre r = .ok (st1, la1, r1) →
    processEventsLoop st la (pre ++ rest) r = processEventsLoop st1 la1 rest r1
  | [], rest, st, la, r, st1, la1, r1, h => by
    simp only [processEventsLoop, Except.ok.injEq, Prod.mk.injEq] at h
    obtain ⟨h1, h2, h3⟩ := h
    subst h1; subst h2; subst h3
    rfl
  | ev :: pre', rest, st, la, r, st1, la1, r1, h => by
    cases hevid : ev.id with
    | none =>
      rw [processEventsLoop_cons_none st la ev pre' r hevid] at h
      exact absurd h (by simp)
    | some eid =>
      rw [processEventsLoop_cons_some st la ev pre' r eid hevid] at h
      rw [List.cons_append, processEventsLoop_cons_some st la ev (pre' ++ rest) r eid hevid]
      cases hpe : processEvent st (ebrRemove la eid).1 ev with
      | error e2 =>
        rw [hpe] at h
        exact absurd h (by simp)
      | ok p =>
        obtain ⟨st2, r2⟩ := p
        rw [hpe] at h
        exact processEventsLoop_append pre' rest st2 ((ebrRemove la eid).1) r2 st1 la1 r1 h

/-- Claim C8: if `processEvent` returns an error for an event of the batch,
`processEvents` returns that error at once — later events are not
processed, the offset is not committed — and `processEventRetryAndGroup`
rolls the transaction back: the poller sees `(false, that error)` and the
store state is unchanged, so no offset advance is observable. -/
theorem C8_error_aborts_batch
    (st : St) (pre post : List Event) (e : Event) (eid : Nat)
    (la0 la1 : EventsByRef) (st1 : St) (r1 : Bool) (er : AggErr)
    (hlb : buildLookahead [] (pre ++ e :: post) = .ok la0)
    (hpre : processEventsLoop st la0 pre false = .ok (st1, la1, r1))
    (hid : e.id = some eid)
    (herr : processEvent st1 (ebrRemove la1 eid).1 e = .error er) :
    processEvents st (pre ++ e :: post) = .error er
    ∧ processEventRetryAndGroup st (pre ++ e :: post) = (st, false, some er) := by
  have hloop : processEventsLoop st la0 (pre ++ e :: post) false = .error er := by
    rw [processEventsLoop_append pre (e :: post) st la0 false st1 la1 r1 hpre,
      processEventsLoop_cons_some st1 la1 e post r1 eid hid, herr]
  have hpe : processEvents st (pre ++ e :: post) = .error er := by
    unfold processEvents
    simp only [hlb, hloop]
  refine ⟨hpe, ?_⟩
  unfold processEventRetryAndGroup
  rw [hpe]

/-- Witness for C8: with a transient store failure injected at the first
operation, the one-event batch aborts with the error, nothing is processed
and the offset stays where it was. -/
theorem C8_witness :
    processEvents c8_st ([] ++ c8_ev :: []) = .error AggErr.dbErr
    ∧ processEventRetryAndGroup c8_st ([] ++ c8_ev :: []) = (c8_st, false, some AggErr.dbErr) :=
  C8_error_aborts_batch c8_st [] [] c8_ev 5 [(6, [c8_ev])] [(6, [c8_ev])] c8_st false
    AggErr.dbErr rfl rfl rfl rfl

/-- The only error `dbOp` can produce is the transient store error. -/
theorem dbOp_dbErrOnly (st : St) : ∀ e, dbOp st = .error e → e = AggErr.dbErr := by
  intro e h
  unfold dbOp at h
  by_cases hc : (st.failAt == some st.ops) = true
  · rw [if_pos hc] at h
    cases h
    rfl
  · rw [if_neg hc] at h
    exact absurd h (by simp)

/-- The only error `getMessageByID` can produce is the transient store
error. -/
theorem getMessageByID_dbErrOnly (st : St) (ref : Option Nat) :
    ∀ e, getMessageByID st ref = .error e → e = AggErr.dbErr := by
  intro e h
  unfold getMessageByID at h
  cases hd : dbOp st with
  | error e2 =>
    rw [hd] at h
    simp only [Except.error.injEq] at h
    exact h ▸ dbOp_dbErrOnly st e2 hd
  | ok st2 =>
    rw [hd] at h
    simp at h

/-- The only error `getMessagesForData` can produce is the transient store error. -/
theorem getMessagesForData_dbErrOnly (st : St) (dataRef : Option Nat) (ns : String) :
    ∀ e, getMessagesForData st dataRef ns = .error e → e = AggErr.dbErr := by
  intro e h
  unfold getMessagesForData at h
  cases hd : dbOp st with
  | error e2 =>
    rw [hd] at h
    simp only [Except.error.injEq] at h
    exact h ▸ dbOp_dbErrOnly st e2 hd
  | ok st2 =>
    rw [hd] at h
    simp at h

/-- The only error `getEventsForMessageSequenced` can produce is the transient store error. -/
theorem getEventsForMessageSequenced_dbErrOnly (st : St) (msgID : Nat) :
    ∀ e, getEventsForMessageSequenced st msgID = .error e → e = AggErr.dbErr := by
  intro e h
  unfold getEventsForMessageSequenced at h
  cases hd : dbOp st with
  | error e2 =>
    rw [hd] at h
    simp only [Except.error.injEq] at h
    exact h ▸ dbOp_dbErrOnly st e2 hd
  | ok st2 =>
    rw [hd] at h
    simp at h

/-- The only error `checkDataAvailable` can produce is the transient store error. -/
theorem checkDataAvailable_dbErrOnly (st : St) (msg : Message) :
    ∀ e, checkDataAvailable st msg = .error e → e = AggErr.dbErr := by
  intro e h
  unfold checkDataAvailable at h
  cases hd : dbOp st with
  | error e2 =>
    rw [hd] at h
    simp only [Except.error.injEq] at h
    exact h ▸ dbOp_dbErrOnly st e2 hd
  | ok st2 =>
    rw [hd] at h
    simp at h

/-- The only error `getBlockedByContext` can produce is the transient store error. -/
theorem getBlockedByContext_dbErrOnly (st : St) (ns context : String) (group : Option Nat) :
    ∀ e, getBlockedByContext st ns context group = .error e → e = AggErr.dbErr := by
  intro e h
  unfold getBlockedByContext at h
  cases hd : dbOp st with
  | error e2 =>
    rw [hd] at h
    simp only [Except.error.injEq] at h
    exact h ▸ dbOp_dbErrOnly st e2 hd
  | ok st2 =>
    rw [hd] at h
    simp at h

/-- The only error `upsertBlocked` can produce is the transient store error. -/
theorem upsertBlocked_dbErrOnly (st : St) (b : Blocked) :
    ∀ e, upsertBlocked st b = .error e → e = AggErr.dbErr := by
  intro e h
  unfold upsertBlocked at h
  cases hd : dbOp st with
  | error e2 =>
    rw [hd] at h
    simp only [Except.error.injEq] at h
    exact h ▸ dbOp_dbErrOnly st e2 hd
  | ok st2 =>
    rw [hd] at h
    simp at h

/-- The only error `updateMessageConfirmed` can produce is the transient store error. -/
theorem updateMessageConfirmed_dbErrOnly (st : St) (msgID ts : Nat) :
    ∀ e, updateMessageConfirmed st msgID ts = .error e → e = AggErr.dbErr := by
  intro e h
  unfold updateMessageConfirmed at h
  cases hd : dbOp st with
  | error e2 =>
    rw [hd] at h
    simp only [Except.error.injEq] at h
    exact h ▸ dbOp_dbErrOnly st e2 hd
  | ok st2 =>
    rw [hd] at h
    simp at h

/-- The only error `upsertEvent` can produce is the transient store error. -/
theorem upsertEvent_dbErrOnly (st : St) (ev : Event) :
    ∀ e, upsertEvent st ev = .error e → e = AggErr.dbErr := by
  intro e h
  unfold upsertEvent at h
  cases hd : dbOp st with
  | error e2 =>
    rw [hd] at h
    simp only [Except.error.injEq] at h
    exact h ▸ dbOp_dbErrOnly st e2 hd
  | ok st2 =>
    rw [hd] at h
    simp at h

/-- The only error `getMessageRefsUnconfirmedAfter` can produce is the transient store error. -/
theorem getMessageRefsUnconfirmedAfter_dbErrOnly (st : St) (ns : String) (group : Option Nat) (context : String) (seq : Int) :
    ∀ e, getMessageRefsUnconfirmedAfter st ns group context seq = .error e → e = AggErr.dbErr := by
  intro e h
  unfold getMessageRefsUnconfirmedAfter at h
  cases hd : dbOp st with
  | error e2 =>
    rw [hd] at h
    simp only [Except.error.injEq] at h
    exact h ▸ dbOp_dbErrOnly st e2 hd
  | ok st2 =>
    rw [hd] at h
    simp at h

/-- The only error `updateBlockedMessage` can produce is the transient store error. -/
theorem updateBlockedMessage_dbErrOnly (st : St) (blockedID msgID : Nat) :
    ∀ e, updateBlockedMessage st blockedID msgID = .error e → e = AggErr.dbErr := by
  intro e h
  unfold updateBlockedMessage at h
  cases hd : dbOp st with
  | error e2 =>
    rw [hd] at h
    simp only [Except.error.injEq] at h
    exact h ▸ dbOp_dbErrOnly st e2 hd
  | ok st2 =>
    rw [hd] at h
    simp at h

/-- The only error `deleteBlocked` can produce is the transient store error. -/
theorem deleteBlocked_dbErrOnly (st : St) (blockedID : Nat) :
    ∀ e, deleteBlocked st blockedID = .error e → e = AggErr.dbErr := by
  intro e h
  unfold deleteBlocked at h
  cases hd : dbOp st with
  | error e2 =>
    rw [hd] at h
    simp only [Except.error.injEq] at h
    exact h ▸ dbOp_dbErrOnly st e2 hd
  | ok st2 =>
    rw [hd] at h
    simp at h

/-- The only error `commitOffset` can produce is the transient store error. -/
theorem commitOffset_dbErrOnly (st : St) (seq : Int) :
    ∀ e, commitOffset st seq = .error e → e = AggErr.dbErr := by
  intro e h
  unfold commitOffset at h
  cases hd : dbOp st with
  | error e2 =>
    rw [hd] at h
    simp only [Except.error.injEq] at h
    exact h ▸ dbOp_dbErrOnly st e2 hd
  | ok st2 =>
    rw [hd] at h
    simp at h

/-- The only error `handleSystemBroadcast` can produce is the transient
collaborator error. -/
theorem handleSystemBroadcast_dbErrOnly (st : St) (msg : Message) :
    ∀ e, handleSystemBroadcast st msg = .error e → e = AggErr.dbErr :=
  fun e h => dbOp_dbErrOnly st e h

/-- The only error `checkUpdateContextBlocked` can produce is the transient
store error. -/
theorem checkUpdateContextBlocked_dbErrOnly (st : St) (msg : Message) (complete : Bool) :
    ∀ e, checkUpdateContextBlocked st msg complete = .error e → e = AggErr.dbErr := by
  intro e h
  unfold checkUpdateContextBlocked at h
  repeat' split at h
  all_goals
    first
    | exact Except.noConfusion h
    | (simp only [Except.error.injEq] at h
       subst h
       solve_by_elim [getBlockedByContext_dbErrOnly, upsertBlocked_dbErrOnly])

/-- The only error the optional system-broadcast step can produce is the
transient collaborator error. -/
theorem systemBroadcastStep_dbErrOnly (st : St) (msg : Message) :
    ∀ e, (if (msg.ns == SystemNamespace) = true then handleSystemBroadcast st msg
          else Except.ok st) = .error e → e = AggErr.dbErr := by
  intro e h
  by_cases hc : (msg.ns == SystemNamespace) = true
  · rw [if_pos hc] at h
    exact handleSystemBroadcast_dbErrOnly st msg e h
  · rw [if_neg hc] at h
    exact Except.noConfusion h

/-- The only error `checkMessageCompleteMain` can produce is the transient
store error. -/
theorem checkMessageCompleteMain_dbErrOnly (st : St) (msg : Message) (la : EventsByRef) :
    ∀ e, checkMessageCompleteMain st msg la = .error e → e = AggErr.dbErr := by
  intro e h
  unfold checkMessageCompleteMain at h
  repeat' split at h
  all_goals
    first
    | exact Except.noConfusion h
    | (simp only [Except.error.injEq] at h
       subst h
       solve_by_elim [checkDataAvailable_dbErrOnly, checkUpdateContextBlocked_dbErrOnly,
         handleSystemBroadcast_dbErrOnly, systemBroadcastStep_dbErrOnly,
         updateMessageConfirmed_dbErrOnly,
         upsertEvent_dbErrOnly, getMessageRefsUnconfirmedAfter_dbErrOnly,
         updateBlockedMessage_dbErrOnly, deleteBlocked_dbErrOnly])

/-- The only error `checkMessageComplete` can produce is the transient
store error. -/
theorem checkMessageComplete_dbErrOnly (st : St) (msg : Message) (la : EventsByRef)
    (ev : Event) :
    ∀ e, checkMessageComplete st msg la ev = .error e → e = AggErr.dbErr := by
  intro e h
  unfold checkMessageComplete at h
  by_cases hg : (ev.reference == some msg.id) = true
  · rw [if_pos hg] at h
    exact checkMessageCompleteMain_dbErrOnly st msg la e h
  · rw [if_neg hg] at h
    cases hq : getEventsForMessageSequenced st msg.id with
    | error e2 =>
      rw [hq] at h
      have h2 : e2 = e := by
        have h' : (Except.error e2 : Except AggErr (St × Bool)) = .error e := h
        injection h'
      exact h2 ▸ getEventsForMessageSequenced_dbErrOnly st msg.id e2 hq
    | ok p =>
      obtain ⟨st2, found⟩ := p
      rw [hq] at h
      cases found with
      | nil =>
        exact Except.noConfusion
          (show (Except.ok (st2, false) : Except AggErr (St × Bool)) = .error e from h)
      | cons x xs => exact checkMessageCompleteMain_dbErrOnly st2 msg la e h

/-- The only error the `processDataArrived` loop can produce is the
transient store error. -/
theorem processDataArrivedLoop_dbErrOnly :
    ∀ (msgs : List Message) (st : St) (la : EventsByRef) (ev : Event) (r : Bool)
      (e : AggErr),
    processDataArrivedLoop st msgs la ev r = .error e → e = AggErr.dbErr
  | [], st, la, ev, r, e => by
    intro h
    simp [processDataArrivedLoop] at h
  | msg :: rest, st, la, ev, r, e => by
    intro h
    unfold processDataArrivedLoop at h
    by_cases hla : hasAnyOf la msg.id [EventType.messageSequencedBroadcast] = true
    · rw [if_pos hla] at h
      exact processDataArrivedLoop_dbErrOnly rest st la ev r e h
    · rw [if_neg hla] at h
      cases hc : checkMessageComplete st msg la ev with
      | error e2 =>
        rw [hc] at h
        simp only [Except.error.injEq] at h
        exact h ▸ checkMessageComplete_dbErrOnly st msg la ev e2 hc
      | ok p =>
        obtain ⟨st2, mr⟩ := p
        rw [hc] at h
        exact processDataArrivedLoop_dbErrOnly rest st2 la ev (r || mr) e h

/-- The only error `processDataArrived` can produce is the transient store
error. -/
theorem processDataArrived_dbErrOnly (st : St) (ns : String) (la : EventsByRef)
    (ev : Event) :
    ∀ e, processDataArrived st ns la ev = .error e → e = AggErr.dbErr := by
  intro e h
  unfold processDataArrived at h
  cases hq : getMessagesForData st ev.reference ns with
  | error e2 =>
    rw [hq] at h
    simp only [Except.error.injEq] at h
    exact h ▸ getMessagesForData_dbErrOnly st ev.reference ns e2 hq
  | ok p =>
    obtain ⟨st1, msgs⟩ := p
    rw [hq] at h
    exact processDataArrivedLoop_dbErrOnly msgs st1 la ev false e h

/-- The only error `processEvent` can produce is the transient store
error. -/
theorem processEvent_dbErrOnly (st : St) (la : EventsByRef) (ev : Event) :
    ∀ e, processEvent st la ev = .error e → e = AggErr.dbErr := by
  intro e h
  unfold processEvent at h
  repeat' split at h
  all_goals
    first
    | exact Except.noConfusion h
    | solve_by_elim [processDataArrived_dbErrOnly, checkMessageComplete_dbErrOnly]
    | (simp only [Except.error.injEq] at h
       subst h
       solve_by_elim [getMessageByID_dbErrOnly])

/-- With well-formed event ids, the only error the per-event loop can
produce is the transient store error. -/
theorem processEventsLoop_dbErrOnly :
    ∀ (events : List Event) (st : St) (la : EventsByRef) (r : Bool) (e : AggErr),
    (∀ ev ∈ events, ev.id ≠ none) →
    processEventsLoop st la events r = .error e → e = AggErr.dbErr
  | [], st, la, r, e, _ => by
    intro h
    simp [processEventsLoop] at h
  | ev :: rest, st, la, r, e, hid => by
    intro h
    cases hevid : ev.id with
    | none => exact absurd hevid (hid ev (List.mem_cons_self _ _))
    | some eid =>
      rw [processEventsLoop_cons_some st la ev rest r eid hevid] at h
      cases hpe : processEvent st (ebrRemove la eid).1 ev with
      | error e2 =>
        rw [hpe] at h
        simp only [Except.error.injEq] at h
        exact h ▸ processEvent_dbErrOnly st ((ebrRemove la eid).1) ev e2 hpe
      | ok p =>
        obtain ⟨st2, r2⟩ := p
        rw [hpe] at h
        exact processEventsLoop_dbErrOnly rest st2 ((ebrRemove la eid).1) r2 e
          (fun x hx => hid x (List.mem_cons_of_mem _ hx)) h

/-- Unfolding equation of `processEvents` once the lookahead is built. -/
theorem processEvents_eq (st : St) (events : List Event) (la0 : EventsByRef)
    (hla0 : buildLookahead [] events = .ok la0) :
    processEvents st events
      = match processEventsLoop st la0 events false with
        | .error e => .error e
        | .ok (st1, _, repoll) =>
          match events.getLast? with
          | none => .error AggErr.indexPanic
          | some lastEvent =>
            match commitOffset st1 lastEvent.sequence with
            | .error e => .error e
            | .ok st2 => .ok (st2, repoll) := by
  conv_lhs => unfold processEvents
  rw [hla0]

/-- A non-empty list of events has a last element. -/
theorem getLastSome_of_ne_nil {l : List Event} (h : l ≠ []) :
    ∃ x, l.getLast? = some x := by
  cases hL : l.getLast? with
  | some x => exact ⟨x, rfl⟩
  | none =>
    cases l with
    | nil => exact absurd rfl h
    | cons a as => simp at hL

/-- Claim C10: `processEvents` dereferences each event's `Reference` and
`ID` without nil checks and indexes the last element of the batch, so in
the guarded (total) embedding the panic branches are reachable for the
empty batch and for events with nil fields; under the precondition that
batches are non-empty and all events carry proper ids and references, the
panic branches are unreachable — any error is the transient store error. -/
theorem C10_processEvents_totality :
    processEvents c10_st [] = .error AggErr.indexPanic
    ∧ processEvents c10_st [c10_evNilRef] = .error AggErr.nilPanic
    ∧ processEvents c10_st [c10_evNilID] = .error AggErr.nilPanic
    ∧ ∀ (st : St) (events : List Event), events ≠ [] →
        (∀ e ∈ events, e.id ≠ none ∧ e.reference ≠ none) →
        panicFree (processEvents st events) := by
  refine ⟨rfl, rfl, rfl, ?_⟩
  intro st events hne hwf
  cases hres : processEvents st events with
  | ok p => exact ⟨by simp [hres], by simp [hres]⟩
  | error er =>
    have her : er = AggErr.dbErr := by
      obtain ⟨la0, hla0⟩ := buildLookahead_ok events [] (fun x hx => (hwf x hx).2)
      rw [processEvents_eq st events la0 hla0] at hres
      cases hloop : processEventsLoop st la0 events false with
      | error e2 =>
        rw [hloop] at hres
        have h2 : e2 = er := by
          have h' : (Except.error e2 : Except AggErr (St × Bool)) = .error er := hres
          injection h'
        exact h2 ▸ processEventsLoop_dbErrOnly events st la0 false e2
          (fun x hx => (hwf x hx).1) hloop
      | ok p =>
        obtain ⟨st1, la1, r⟩ := p
        rw [hloop] at hres
        obtain ⟨lastEv, hlast⟩ := getLastSome_of_ne_nil hne
        rw [hlast] at hres
        have hres2 : (match commitOffset st1 lastEv.sequence with
            | Except.error e => (Except.error e : Except AggErr (St × Bool))
            | Except.ok st2 => Except.ok (st2, r)) = .error er := hres
        cases hco : commitOffset st1 lastEv.sequence with
        | error e2 =>
          rw [hco] at hres2
          have h2 : e2 = er := by
            have h' : (Except.error e2 : Except AggErr (St × Bool)) = .error er := hres2
            injection h'
          exact h2 ▸ commitOffset_dbErrOnly st1 lastEv.sequence e2 hco
        | ok st2 =>
          rw [hco] at hres2
          exact Except.noConfusion
            (show (Except.ok (st2, r) : Except AggErr (St × Bool)) = .error er from hres2)
    subst her
    exact ⟨by simp [hres], by simp [hres]⟩

/-- Witness for C10's precondition clause: a well-formed one-event batch
cannot reach either panic branch. -/
theorem C10_witness : panicFree (processEvents c10_st [c10_good]) :=
  C10_processEvents_totality.2.2.2 c10_st [c10_good] (by decide) (by decide)

/-- Setting `confirmed` on the message's own row does not change the
successor query: that row is excluded by the `sequence >` filter, all
other rows are untouched. -/
theorem filter_unblock_setConfirmed :
    ∀ (msgs : List Message) (msgID : Nat) (ts : Nat) (ns : String) (group : Option Nat)
      (context : String) (seq : Int),
    (∀ m ∈ msgs, m.id = msgID → ¬(seq < m.sequence)) →
    (setConfirmed msgs msgID ts).filter (fun m =>
        m.ns == ns && m.group == group && m.context == context
        && decide (seq < m.sequence) && m.confirmed == none)
      = msgs.filter (fun m =>
        m.ns == ns && m.group == group && m.context == context
        && decide (seq < m.sequence) && m.confirmed == none)
  | [], _, _, _, _, _, _, _ => rfl
  | x :: xs, msgID, ts, ns, group, context, seq, hseq => by
    have ih := filter_unblock_setConfirmed xs msgID ts ns group context seq
      (fun m hm => hseq m (List.mem_cons_of_mem _ hm))
    simp only [setConfirmed, List.map_cons] at ih ⊢
    by_cases hid : (x.id == msgID) = true
    · have hdec : ¬(seq < x.sequence) :=
        hseq x (List.mem_cons_self _ _) (by simpa using hid)
      rw [if_pos hid, List.filter_cons, List.filter_cons, ih]
      simp [hdec]
    · rw [if_neg hid, List.filter_cons, List.filter_cons, ih]

/-- Confirming `msg` itself leaves the successor query of its own context
unchanged (ids are unique, so only `msg`'s row is touched, and that row is
excluded by the strict `sequence` bound). -/
theorem unblockCandidates_setConfirmed (msgs : List Message) (msg : Message) (ts : Nat)
    (hmem : msg ∈ msgs) (hids : (msgs.map Message.id).Nodup) :
    unblockCandidates (setConfirmed msgs msg.id ts) msg.ns msg.group msg.context msg.sequence
      = unblockCandidates msgs msg.ns msg.group msg.context msg.sequence := by
  have hseq : ∀ m ∈ msgs, m.id = msg.id → ¬(msg.sequence < m.sequence) := by
    intro m hm hid
    have hm2 : m = msg := List.inj_on_of_nodup_map hids hm hmem (by rw [hid])
    subst hm2
    exact lt_irrefl _
  unfold unblockCandidates
  rw [filter_unblock_setConfirmed msgs msg.id ts msg.ns msg.group msg.context
    msg.sequence hseq]

/-- Main-body unfolding for a successful confirm when the blocker names the
message and no unconfirmed successor exists: the blocker row is deleted,
only the `message-confirmed` event is inserted, repoll is false. -/
theorem checkMessageCompleteMain_confirm_delete (st : St) (msg : Message)
    (la : EventsByRef) (b : Blocked)
    (hf : st.failAt = none)
    (hdata : dataAvailableFor st.dataAvail msg = true)
    (hb : findBlockedByContext st.blocked msg.ns msg.context msg.group = some b)
    (hbm : (b.message == some msg.id) = true)
    (hcand : unblockCandidates (setConfirmed st.messages msg.id st.now)
        msg.ns msg.group msg.context msg.sequence = []) :
    ∃ st', checkMessageCompleteMain st msg la = .ok (st', false)
      ∧ st'.messages = setConfirmed st.messages msg.id st.now
      ∧ st'.blocked = st.blocked.filter (fun x => !(x.id == b.id))
      ∧ (∃ ce, st'.eventLog = st.eventLog ++ [ce]
          ∧ ce.type = EventType.messageConfirmed ∧ ce.reference = some msg.id)
      ∧ st'.offset = st.offset ∧ st'.dataAvail = st.dataAvail := by
  by_cases hs : (msg.ns == SystemNamespace) = true
  all_goals
    unfold checkMessageCompleteMain checkDataAvailable checkUpdateContextBlocked
      getBlockedByContext updateMessageConfirmed upsertEvent newEvent
      getMessageRefsUnconfirmedAfter deleteBlocked handleSystemBroadcast
    simp [dbOp, hf, hdata, hb, hbm, hs, hcand]

/-- Main-body unfolding for a successful confirm when the blocker names the
message, an unconfirmed successor N exists, and the lookahead holds a
remaining `message-confirmed` or `message-sequenced-broadcast` event for N:
the blocker is redirected to N, no `messages-unblocked` event is emitted,
repoll is false. -/
theorem checkMessageCompleteMain_confirm_update_quiet (st : St) (msg : Message)
    (la : EventsByRef) (b : Blocked) (N : MessageRef) (rest : List MessageRef)
    (hf : st.failAt = none)
    (hdata : dataAvailableFor st.dataAvail msg = true)
    (hb : findBlockedByContext st.blocked msg.ns msg.context msg.group = some b)
    (hbm : (b.message == some msg.id) = true)
    (hcand : unblockCandidates (setConfirmed st.messages msg.id st.now)
        msg.ns msg.group msg.context msg.sequence = N :: rest)
    (hla : hasAnyOf la N.id
        [EventType.messageConfirmed, EventType.messageSequencedBroadcast] = true) :
    ∃ st', checkMessageCompleteMain st msg la = .ok (st', false)
      ∧ st'.messages = setConfirmed st.messages msg.id st.now
      ∧ st'.blocked = st.blocked.map (fun x =>
          if x.id == b.id then { x with message := some N.id } else x)
      ∧ (∃ ce, st'.eventLog = st.eventLog ++ [ce]
          ∧ ce.type = EventType.messageConfirmed ∧ ce.reference = some msg.id)
      ∧ st'.offset = st.offset ∧ st'.dataAvail = st.dataAvail := by
  by_cases hs : (msg.ns == SystemNamespace) = true
  all_goals
    unfold checkMessageCompleteMain checkDataAvailable checkUpdateContextBlocked
      getBlockedByContext updateMessageConfirmed upsertEvent newEvent
      getMessageRefsUnconfirmedAfter updateBlockedMessage handleSystemBroadcast
    simp [dbOp, hf, hdata, hb, hbm, hs, hcand, hla]

/-- Main-body unfolding for a successful confirm when the blocker names the
message, an unconfirmed successor N exists, and the lookahead holds no
remaining event for N: the blocker is redirected to N, a
`messages-unblocked` event referencing N is inserted, repoll is true. -/
theorem checkMessageCompleteMain_confirm_update_emit (st : St) (msg : Message)
    (la : EventsByRef) (b : Blocked) (N : MessageRef) (rest : List MessageRef)
    (hf : st.failAt = none)
    (hdata : dataAvailableFor st.dataAvail msg = true)
    (hb : findBlockedByContext st.blocked msg.ns msg.context msg.group = some b)
    (hbm : (b.message == some msg.id) = true)
    (hcand : unblockCandidates (setConfirmed st.messages msg.id st.now)
        msg.ns msg.group msg.context msg.sequence = N :: rest)
    (hla : hasAnyOf la N.id
        [EventType.messageConfirmed, EventType.messageSequencedBroadcast] = false) :
    ∃ st', checkMessageCompleteMain st msg la = .ok (st', true)
      ∧ st'.messages = setConfirmed st.messages msg.id st.now
      ∧ st'.blocked = st.blocked.map (fun x =>
          if x.id == b.id then { x with message := some N.id } else x)
      ∧ (∃ ce ue, st'.eventLog = st.eventLog ++ [ce, ue]
          ∧ ce.type = EventType.messageConfirmed ∧ ce.reference = some msg.id
          ∧ ue.type = EventType.messagesUnblocked ∧ ue.reference = some N.id)
      ∧ st'.offset = st.offset ∧ st'.dataAvail = st.dataAvail := by
  by_cases hs : (msg.ns == SystemNamespace) = true
  all_goals
    unfold checkMessageCompleteMain checkDataAvailable checkUpdateContextBlocked
      getBlockedByContext updateMessageConfirmed upsertEvent newEvent
      getMessageRefsUnconfirmedAfter updateBlockedMessage handleSystemBroadcast
    simp [dbOp, hf, hdata, hb, hbm, hs, hcand, hla]
  all_goals exact ⟨_, _, ⟨rfl, rfl⟩, rfl, rfl, rfl, rfl⟩

/-- Claim C5: when `checkMessageComplete` confirms a message whose context
blocker names that message: if an unconfirmed message N of the same
(namespace, group, context) with a higher sequence exists (N is the head of
the successor query), the blocker's `message` field is updated to N.id, and
a `messages-unblocked` event referencing N.id is inserted with repoll true
if and only if the lookahead holds no remaining `message-confirmed` or
`message-sequenced-broadcast` event for N.id; if no successor exists, the
blocker row is deleted. -/
theorem C5_confirm_unblock_behaviour
    (st : St) (msg : Message) (la : EventsByRef) (ev : Event) (b : Blocked)
    (hf : st.failAt = none)
    (hmem : msg ∈ st.messages)
    (hids : (st.messages.map Message.id).Nodup)
    (href : ev.reference = some msg.id)
    (hdata : dataAvailableFor st.dataAvail msg = true)
    (hb : findBlockedByContext st.blocked msg.ns msg.context msg.group = some b)
    (hbm : b.message = some msg.id) :
    (unblockCandidates st.messages msg.ns msg.group msg.context msg.sequence = [] →
      ∃ st', checkMessageComplete st msg la ev = .ok (st', false)
        ∧ st'.blocked = st.blocked.filter (fun x => !(x.id == b.id))
        ∧ (∃ ce, st'.eventLog = st.eventLog ++ [ce]
            ∧ ce.type = EventType.messageConfirmed ∧ ce.reference = some msg.id))
    ∧ (∀ N rest,
        unblockCandidates st.messages msg.ns msg.group msg.context msg.sequence
          = N :: rest →
        (hasAnyOf la N.id
            [EventType.messageConfirmed, EventType.messageSequencedBroadcast] = true →
          ∃ st', checkMessageComplete st msg la ev = .ok (st', false)
            ∧ st'.blocked = st.blocked.map (fun x =>
                if x.id == b.id then { x with message := some N.id } else x)
            ∧ (∃ ce, st'.eventLog = st.eventLog ++ [ce]
                ∧ ce.type = EventType.messageConfirmed ∧ ce.reference = some msg.id))
        ∧ (hasAnyOf la N.id
            [EventType.messageConfirmed, EventType.messageSequencedBroadcast] = false →
          ∃ st', checkMessageComplete st msg la ev = .ok (st', true)
            ∧ st'.blocked = st.blocked.map (fun x =>
                if x.id == b.id then { x with message := some N.id } else x)
            ∧ (∃ ce ue, st'.eventLog = st.eventLog ++ [ce, ue]
                ∧ ce.type = EventType.messageConfirmed ∧ ce.reference = some msg.id
                ∧ ue.type = EventType.messagesUnblocked
                ∧ ue.reference = some N.id))) := by
  have hconv := unblockCandidates_setConfirmed st.messages msg st.now hmem hids
  have hbm' : (b.message == some msg.id) = true := by simp [hbm]
  have href' : (ev.reference == some msg.id) = true := by simp [href]
  have hguard := checkMessageComplete_ref_eq st msg la ev href'
  refine ⟨?_, ?_⟩
  · intro hcand
    obtain ⟨st', h1, _, h3, h4, _, _⟩ :=
      checkMessageCompleteMain_confirm_delete st msg la b hf hdata hb hbm'
        (hconv.trans hcand)
    exact ⟨st', hguard.trans h1, h3, h4⟩
  · intro N rest hcand
    refine ⟨?_, ?_⟩
    · intro hla
      obtain ⟨st', h1, _, h3, h4, _, _⟩ :=
        checkMessageCompleteMain_confirm_update_quiet st msg la b N rest hf hdata hb
          hbm' (hconv.trans hcand) hla
      exact ⟨st', hguard.trans h1, h3, h4⟩
    · intro hla
      obtain ⟨st', h1, _, h3, h4, _, _⟩ :=
        checkMessageCompleteMain_confirm_update_emit st msg la b N rest hf hdata hb
          hbm' (hconv.trans hcand) hla
      exact ⟨st', hguard.trans h1, h3, h4⟩

/-- Witness for C5: confirming `c5_M1` redirects the blocker to `c5_M2`
and, with an empty lookahead, inserts a `messages-unblocked` event for it
with repoll true. -/
theorem C5_witness :
    unblockCandidates c5_st.messages c5_M1.ns c5_M1.group c5_M1.context c5_M1.sequence
      = { id := 2, sequence := 20 } :: []
    ∧ ∃ st', checkMessageComplete c5_st c5_M1 [] c5_ev = .ok (st', true)
        ∧ st'.blocked = c5_st.blocked.map (fun x =>
            if x.id == c5_b.id then { x with message := some (2 : Nat) } else x)
        ∧ (∃ ce ue, st'.eventLog = c5_st.eventLog ++ [ce, ue]
            ∧ ce.type = EventType.messageConfirmed ∧ ce.reference = some c5_M1.id
            ∧ ue.type = EventType.messagesUnblocked
            ∧ ue.reference = some (2 : Nat)) :=
  ⟨by decide,
    ((C5_confirm_unblock_behaviour c5_st c5_M1 [] c5_ev c5_b rfl (by decide)
        (by decide) rfl rfl (by decide) rfl).2
      { id := 2, sequence := 20 } [] (by decide)).2 rfl⟩
